import Mathlib

/-!
# Verification of the GNS3 GUI local settings store (`gns3/local_config.py`)

This file gives a shallow embedding of the `LocalConfig` settings store:
JSON-like settings documents are modelled as an inductive `JVal`, Python
dictionaries as ordered association lists with unique keys, and the methods
`_migrateOldConfig`, `_readConfig`, `_writeConfig`, `loadSectionSettings`,
`saveSectionSettings` and `setSettings` as pure functions over that state.
Fallible Python code (statements that can raise) is modelled with `Option`:
`none` means an uncaught exception.
-/

/-- JSON values as produced by `json.load`, restricted to string-keyed
objects (the key space of the settings document). Numbers are modelled as
integers: no claim computes with numerics. -/
inductive JVal where
  | null : JVal
  | bool : Bool → JVal
  | num : Int → JVal
  | str : String → JVal
  | arr : List JVal → JVal
  | obj : List (String × JVal) → JVal

/-- A Python dict with string keys: an insertion-ordered association list.
States reachable in Python have unique keys (see `dnodup`). -/
abbrev Dict := List (String × JVal)

/-- Dictionary lookup, `d[k]` / `d.get(k)`: first matching key. -/
def dget : Dict → String → Option JVal
  | [], _ => none
  | (k', v) :: rest, k => if k' = k then some v else dget rest k

/-- Python `k in d`. -/
def dmem (d : Dict) (k : String) : Bool :=
  (dget d k).isSome

/-- Python `d[k] = v`: replace in place if the key exists (keeping its
position), otherwise append at the end (insertion order). -/
def dset : Dict → String → JVal → Dict
  | [], k, v => [(k, v)]
  | (k', v') :: rest, k, v =>
    if k' = k then (k', v) :: rest else (k', v') :: dset rest k v

/-- Python `d.update(other)` for a dict argument: assign each key/value
pair of `other` into `d`, in `other`'s insertion order. -/
def dupdate (d other : Dict) : Dict :=
  other.foldl (fun acc kv => dset acc kv.1 kv.2) d

/-- Python `d.keys()` as a list (iteration order). -/
def dKeys (d : Dict) : List String :=
  d.map Prod.fst

mutual
/-- Python `==` on settings values: dictionaries compare as unordered
key/value mappings, lists pointwise, and `True == 1` / `False == 0`
(Python booleans are numeric). -/
def jeq : JVal → JVal → Bool
  | .null, .null => true
  | .bool a, .bool b => a = b
  | .bool a, .num n => (if a then (1 : Int) else 0) = n
  | .num n, .bool a => n = (if a then (1 : Int) else 0)
  | .num a, .num b => a = b
  | .str a, .str b => a = b
  | .arr xs, .arr ys => jeqList xs ys
  | .obj d1, .obj d2 => d1.length = d2.length && jeqObj d1 d2
  | _, _ => false
termination_by a _ => sizeOf a

/-- Pointwise list equality (Python `list == list`). -/
def jeqList : List JVal → List JVal → Bool
  | [], [] => true
  | x :: xs, y :: ys => jeq x y && jeqList xs ys
  | _, _ => false
termination_by xs _ => sizeOf xs

/-- Every entry of the first dict is matched by key in the second. -/
def jeqObj : List (String × JVal) → List (String × JVal) → Bool
  | [], _ => true
  | (k, v) :: rest, d2 =>
    (match dget d2 k with
     | some w => jeq v w
     | none => false) && jeqObj rest d2
termination_by d _ => sizeOf d
end

mutual
/-- Well-formedness of a settings value as a Python object: every
dictionary that occurs in it has pairwise-distinct keys. -/
def jnodup : JVal → Bool
  | .obj d => dnodup d
  | .arr xs => lnodup xs
  | _ => true
termination_by v => sizeOf v

/-- Well-formedness of a dict: distinct keys, well-formed values. -/
def dnodup : Dict → Bool
  | [] => true
  | (k, v) :: rest => !(dmem rest k) && jnodup v && dnodup rest
termination_by d => sizeOf d

/-- Well-formedness of every element of a list. -/
def lnodup : List JVal → Bool
  | [] => true
  | x :: xs => jnodup x && lnodup xs
termination_by xs => sizeOf xs
end

mutual
/-- Structural equality of values (used where Python compares a value it
itself stored, so insertion orders coincide). -/
def jbeq : JVal → JVal → Bool
  | .null, .null => true
  | .bool a, .bool b => a = b
  | .num a, .num b => a = b
  | .str a, .str b => a = b
  | .arr xs, .arr ys => jbeqList xs ys
  | .obj d1, .obj d2 => jbeqDict d1 d2
  | _, _ => false
termination_by a _ => sizeOf a

/-- Structural equality of value lists. -/
def jbeqList : List JVal → List JVal → Bool
  | [], [] => true
  | x :: xs, y :: ys => jbeq x y && jbeqList xs ys
  | _, _ => false
termination_by xs _ => sizeOf xs

/-- Structural equality of dicts (entry lists). -/
def jbeqDict : Dict → Dict → Bool
  | [], [] => true
  | (k, v) :: rest, (k', v') :: rest' => k = k' && jbeq v v' && jbeqDict rest rest'
  | _, _ => false
termination_by d _ => sizeOf d
end


/-! ## `loadSectionSettings` and its recursive default-filling helper -/

/-- Python `needle in hay` for strings: substring test. -/
def pyStrIn (needle hay : String) : Bool :=
  decide (List.IsInfix needle.toList hay.toList)

/-- The nested helper `_copySettings(local, default)` of
`LocalConfig.loadSectionSettings`:

```python
def _copySettings(local, default):
    for name, value in default.items():
        if name not in local:
            local[name] = value
        elif isinstance(value, dict):
            local[name] = _copySettings(local[name], default[name])
    return local
```

`local` is an arbitrary value; when it is not a dict, Python's dynamic
semantics decide each iteration: for a string, `name not in local` is a
substring test (a failed test leads to item assignment, a `TypeError`; a
dict-valued default leads to string indexing, a `TypeError`); for a list,
`name not in local` is element membership with the same follow-ups; for
any other value, `name in local` itself raises `TypeError`. `none`
models an uncaught exception. -/
def copySettings : JVal → Dict → Option JVal
  | localv, [] => some localv
  | .obj d, (name, value) :: rest =>
    if dmem d name then
      match value with
      | .obj dd =>
        match dget d name with
        | some lv => do
            let r ← copySettings lv dd
            copySettings (.obj (dset d name r)) rest
        | none => none
      | _ => copySettings (.obj d) rest
    else
      copySettings (.obj (dset d name value)) rest
  | .str s, (name, value) :: rest =>
    if pyStrIn name s then
      match value with
      | .obj _ => none
      | _ => copySettings (.str s) rest
    else none
  | .arr xs, (name, value) :: rest =>
    if xs.any fun x => jeq (.str name) x then
      match value with
      | .obj _ => none
      | _ => copySettings (.arr xs) rest
    else none
  | _, _ :: _ => none
termination_by _ default => sizeOf default

/-- `LocalConfig.loadSectionSettings(section, default_settings)` acting on
the in-memory document `st`: reads the persisted section (or `{}`), fills
it with `_copySettings`, stores the result back under `section` and
returns it (the deep copies are identities under value semantics).
`none` models an uncaught exception from `_copySettings`. -/
def loadSectionSettings (st : Dict) (sec : String) (defaults : Dict) :
    Option (Dict × JVal) :=
  match copySettings ((dget st sec).getD (.obj [])) defaults with
  | some r => some (dset st sec r, r)
  | none => none

/-! ## Version comparison and the legacy migration -/

/-- Split a character list at the dots. -/
def splitDotsAux : List Char → List Char → List (List Char)
  | [], acc => [acc.reverse]
  | c :: cs, acc =>
    if c = '.' then acc.reverse :: splitDotsAux cs [] else splitDotsAux cs (c :: acc)

/-- Read a digit sequence as a number. -/
def digitsToNat (cs : List Char) : Nat :=
  cs.foldl (fun a c => a * 10 + (c.toNat - 48)) 0

/-- `pkg_resources.parse_version`, modelled for the dotted-numeric version
strings the store uses: split on `.` and read each component as a
number. -/
def parseVersion (s : String) : List Nat :=
  (splitDotsAux s.toList []).map digitsToNat

/-- Lexicographic comparison of numeric version components (the order
`parse_version` induces on dotted-numeric versions). -/
def verListLt : List Nat → List Nat → Bool
  | [], [] => false
  | [], _ :: _ => true
  | _ :: _, [] => false
  | a :: as, b :: bs => a < b || (a = b && verListLt as bs)

/-- `parse_version(a) < parse_version(b)`: dotted-numeric ordering. -/
def versionLt (a b : String) : Bool :=
  verListLt (parseVersion a) (parseVersion b)

/-- The obsolete OSX server path rewritten by the migration. -/
def oldServerPath : String :=
  "/Applications/GNS3.app/Contents/Resources/server/Contents/MacOS/gns3server"

/-- Its replacement. -/
def newServerPath : String :=
  "/Applications/GNS3.app/Contents/MacOS/gns3server"

/-- The guard of `_migrateOldConfig`:
`"version" not in self._settings or parse_version(self._settings["version"]) < parse_version("1.4.0")`.
A non-string version value makes `parse_version` raise (modelled `none`). -/
def shouldMigrate (s : Dict) : Option Bool :=
  match dget s "version" with
  | none => some true
  | some (.str v) => some (versionLt v "1.4.0")
  | some _ => none

/-- The `LocalServer` value placed into `Servers.local_server`:
`copy.copy(settings["LocalServer"])` with its `path` rewritten when it
equals the obsolete install path. Reading `["path"]` from a non-dict or a
dict without the key raises (modelled `none`). -/
def migLocalServerVal (ls : JVal) : Option JVal :=
  match ls with
  | .obj d =>
    match dget d "path" with
    | some (.str p) =>
      some (if p = oldServerPath then .obj (dset d "path" (.str newServerPath)) else .obj d)
    | some _ => some (.obj d)
    | none => none
  | _ => none

/-- First statements of the migration body:
`servers = self._settings.get("Servers", {})` followed by the
`LocalServer` block (`servers["local_server"] = ...` needs `servers`
to be a dict; the path rewrite is `migLocalServerVal`). -/
def migServers1 (s : Dict) : Option JVal :=
  match dget s "LocalServer" with
  | none => some ((dget s "Servers").getD (.obj []))
  | some ls =>
    match (dget s "Servers").getD (.obj []) with
    | .obj sd =>
      (migLocalServerVal ls).bind fun lsv => some (JVal.obj (dset sd "local_server" lsv))
    | _ => none

/-- The `RemoteServers` block: `servers["remote_servers"] = copy.copy(...)`. -/
def migServers2 (s : Dict) (servers1 : JVal) : Option JVal :=
  match dget s "RemoteServers" with
  | none => some servers1
  | some rs =>
    match servers1 with
    | .obj sd => some (JVal.obj (dset sd "remote_servers" rs))
    | _ => none

/-- The `GUI` block, run on the document after `self._settings["Servers"]
= servers`: hoists `hide_getting_started_dialog` into `MainWindow`.
`.get` on a non-dict `GUI` and item assignment on a non-dict
`MainWindow` raise. -/
def migGui (s1 : Dict) : Option Dict :=
  match dget s1 "GUI" with
  | none => some s1
  | some (.obj gd) =>
    match (dget s1 "MainWindow").getD (.obj []) with
    | .obj md =>
      some (dset s1 "MainWindow"
        (.obj (dset md "hide_getting_started_dialog"
          ((dget gd "hide_getting_started_dialog").getD (.bool false)))))
    | _ => none
  | some _ => none

/-- The body of `_migrateOldConfig` (the code under the version guard). -/
def migrateBody (s : Dict) : Option Dict :=
  (migServers1 s).bind fun servers1 =>
    (migServers2 s servers1).bind fun servers2 =>
      migGui (dset s "Servers" servers2)

/-- `LocalConfig._migrateOldConfig`: run the body only when the document
has no `version` or its version parses below `1.4.0`. -/
def migrateOldConfig (s : Dict) : Option Dict := do
  let b ← shouldMigrate s
  if b then migrateBody s else pure s

/-! ## The store state, `_readConfig`, `_writeConfig` and the mutators -/

/-- The mutable state of a `LocalConfig` instance: the in-memory document
`self._settings` and the recorded modification timestamp
`self._last_config_changed` (`none` while the attribute is unset).
File-system times are abstracted as integers. -/
structure ConfigState where
  settings : Dict
  lastChanged : Option Int

/-- The environment-determined outcome of the I/O prefix of
`_readConfig`: `openFail` if `open` or `os.stat` raises `OSError`
(caught); `parseFail m` if the file opened and its mtime `m` was
recorded but `json.load` raised `ValueError`/`OSError` (caught);
`parsed m v` if the mtime `m` was recorded and the file parsed to `v`. -/
inductive ReadOutcome where
  | openFail : ReadOutcome
  | parseFail : Int → ReadOutcome
  | parsed : Int → JVal → ReadOutcome

/-- Outcome of `dict.update(arg)`: success, or a `ValueError`
(caught by `_readConfig`) or `TypeError` (uncaught) raised after the
partial mutation `d` already performed. -/
inductive UpdateResult where
  | ok : Dict → UpdateResult
  | valueErr : Dict → UpdateResult
  | typeErr : Dict → UpdateResult

/-- `dict.update` over a sequence argument (a parsed JSON array): each
element must unpack to a key/value pair. A two-character string or a
two-entry dict (whose keys unpack) or a two-element array with a string
head works; other lengths raise `ValueError`, non-iterable elements and
unhashable keys raise `TypeError`. Pairs whose key is a non-string
scalar leave the model's string key space and are mapped to the
`TypeError` case. -/
def pairsUpdate (d : Dict) : List JVal → UpdateResult
  | [] => .ok d
  | x :: rest =>
    match x with
    | .str s =>
      match s.toList with
      | [c1, c2] => pairsUpdate (dset d (String.mk [c1]) (.str (String.mk [c2]))) rest
      | _ => .valueErr d
    | .arr [.str k, b] => pairsUpdate (dset d k b) rest
    | .arr [_, _] => .typeErr d
    | .arr _ => .valueErr d
    | .obj [(k1, _), (k2, _)] => pairsUpdate (dset d k1 (.str k2)) rest
    | .obj _ => .valueErr d
    | _ => .typeErr d

/-- `self._settings.update(config)` for an arbitrary parsed JSON value
`config`: a dict merges; a string iterates its characters (empty: no-op,
nonempty: `ValueError` on the first one-character element); an array is a
sequence of pairs; numbers, booleans and `null` are not iterable
(`TypeError`). -/
def settingsUpdate (d : Dict) : JVal → UpdateResult
  | .obj s => .ok (dupdate d s)
  | .str s => if s.isEmpty then .ok d else .valueErr d
  | .arr xs => pairsUpdate d xs
  | _ => .typeErr d

/-- The `try` block of `_readConfig`: the mtime is recorded *before*
`json.load` runs, so a parse failure still updates it; `ValueError` and
`OSError` are caught, `TypeError` from `update` propagates (`none`). -/
def readTryBlock (cs : ConfigState) : ReadOutcome → Option ConfigState
  | .openFail => some cs
  | .parseFail m => some ⟨cs.settings, some m⟩
  | .parsed m v =>
    match settingsUpdate cs.settings v with
    | .ok d => some ⟨d, some m⟩
    | .valueErr d => some ⟨d, some m⟩
    | .typeErr _ => none

/-- The loop after the `try` block of `_readConfig`:

```python
for section in self._settings.keys():
    if isinstance(self._settings[section], dict):
        self.loadSectionSettings(section, self._settings[section])
```

Each dict-valued top-level entry is passed to `loadSectionSettings` with
its own current content as the default template. -/
def refillLoop (st : Dict) : List String → Option Dict
  | [] => some st
  | k :: ks =>
    match dget st k with
    | some (.obj d) =>
      match loadSectionSettings st k d with
      | some (st', _) => refillLoop st' ks
      | none => none
    | _ => refillLoop st ks

/-- `LocalConfig._readConfig(path)`: the `try` block (parameterised by
the environment outcome) followed by the section-refill loop. `none`
models an uncaught exception. (The method's return value is always the
empty dict and is omitted.) -/
def readConfig (cs : ConfigState) (o : ReadOutcome) : Option ConfigState :=
  match readTryBlock cs o with
  | none => none
  | some cs1 =>
    match refillLoop cs1.settings (dKeys cs1.settings) with
    | some st => some ⟨st, cs1.lastChanged⟩
    | none => none

/-- `LocalConfig._writeConfig()`: stamps `self._settings["version"]` with
the running application version `ver` (from `gns3.version`, outside this
excerpt), then writes the document to a temporary file and renames it.
`wres` is the environment outcome: `some m` means the write succeeded
and the file's new mtime `m` is recorded; `none` means `ValueError` or
`OSError`, which is caught and leaves the timestamp alone (the version
stamp has already happened). -/
def writeConfig (ver : String) (cs : ConfigState) (wres : Option Int) : ConfigState :=
  { settings := dset cs.settings "version" (.str ver)
    lastChanged := match wres with
      | some m => some m
      | none => cs.lastChanged }

/-- The first statement of `saveSectionSettings`:
`if section not in self._settings: self._settings[section] = {}`. -/
def ensureSection (st : Dict) (sec : String) : Dict :=
  if dmem st sec then st else dset st sec (.obj [])

/-- The section content `self._settings[section]` compared against the
new values (after the ensure-step it always exists). -/
def currentSection (st : Dict) (sec : String) : JVal :=
  (dget (ensureSection st sec) sec).getD (.obj [])

/-- `LocalConfig.saveSectionSettings(section, settings)`: create the
section if absent; if the current section content differs (Python `!=`)
from the given mapping, merge the mapping in and persist via
`_writeConfig`; otherwise skip the write. The returned flag records
whether `_writeConfig` ran. `.update` on a non-dict section raises
(`none`). -/
def saveSectionSettings (ver : String) (cs : ConfigState) (sec : String)
    (s : Dict) (wres : Option Int) : Option (ConfigState × Bool) :=
  let st1 := ensureSection cs.settings sec
  match dget st1 sec with
  | none => none
  | some cur =>
    if jeq cur (.obj s) then some (⟨st1, cs.lastChanged⟩, false)
    else
      match cur with
      | .obj d =>
        some (writeConfig ver ⟨dset st1 sec (.obj (dupdate d s)), cs.lastChanged⟩ wres, true)
      | _ => none

/-- `LocalConfig.setSettings(settings)`: if the given document differs
(Python `!=`) from the in-memory one, merge it in and persist. The flag
records whether `_writeConfig` ran. -/
def setSettings (ver : String) (cs : ConfigState) (doc : Dict)
    (wres : Option Int) : ConfigState × Bool :=
  if jeq (.obj cs.settings) (.obj doc) then (cs, false)
  else (writeConfig ver ⟨dupdate cs.settings doc, cs.lastChanged⟩ wres, true)

/-! ## Specification-side predicates

These predicates state, in the spec's words, what the default-filling
accessor is supposed to produce; they are compared against the embedded
code above. -/

/-- The data-model invariant for one top-level key: the value stored
under a section name is a mapping (or the section is absent). -/
def sectionShape (st : Dict) (sec : String) : Bool :=
  match dget st sec with
  | none => true
  | some (.obj _) => true
  | some _ => false

/-- The shape precondition relating a persisted section to its default
template: wherever the defaults map a key to a nested mapping, the
section either lacks that key or also maps it to a mapping,
recursively. -/
def shapeOk (S : Dict) : Dict → Bool
  | [] => true
  | (k, v) :: rest =>
    (match v with
     | .obj dd =>
       match dget S k with
       | none => true
       | some (.obj sd) => shapeOk sd dd
       | some _ => false
     | _ => true) && shapeOk S rest
termination_by D => sizeOf D

mutual
/-- Spec of the filled result `r` at one default entry `(k, dv)` given
the persisted section `S`: the key is present in `r`; a key the section
lacked carries the default verbatim; a key present in both keeps the
section's value, recursively merged when both sides are mappings. -/
def checkOne (S r : Dict) (k : String) (dv : JVal) : Bool :=
  match dget r k with
  | none => false
  | some rv =>
    match dv with
    | .obj dd =>
      match dget S k with
      | none => jbeq rv (.obj dd)
      | some (.obj sd) =>
        match rv with
        | .obj rd => fillKeysOk sd dd rd
        | _ => false
      | some sv => jbeq rv sv
    | _ =>
      match dget S k with
      | none => jbeq rv dv
      | some sv => jbeq rv sv
termination_by sizeOf dv

/-- `checkOne` at every entry of the default template. -/
def fillKeysOk (S : Dict) : Dict → Dict → Bool
  | [], _ => true
  | (k, dv) :: rest, r => checkOne S r k dv && fillKeysOk S rest r
termination_by D _ => sizeOf D
end

/-- Existing values survive: every entry of the persisted section is
still present in the result, unchanged unless its key also appears in
the default template (where `checkOne` governs it). -/
def keepKeysOk (S D r : Dict) : Bool :=
  S.all fun kv =>
    match dget r kv.1 with
    | none => false
    | some rv => dmem D kv.1 || jbeq rv kv.2

/-- Full specification of `fill(S, D)` from the spec: "contains every
key of `D`" (recursively for nested mappings) and "any key present in
both keeps `S`'s value — existing values are never overwritten by
defaults". -/
def fillSpecB (S D r : Dict) : Bool :=
  fillKeysOk S D r && keepKeysOk S D r

/-- Lexical (code-point) comparison of character lists: the string order
Python would use if versions were compared as plain strings. -/
def charListLt : List Char → List Char → Bool
  | [], [] => false
  | [], _ :: _ => true
  | _ :: _, [] => false
  | a :: as, b :: bs => a < b || (a = b && charListLt as bs)

/-- Lexical string comparison (Python `str < str`). -/
def strLexLt (a b : String) : Bool :=
  charListLt a.toList b.toList

/-- Two-level lookup `doc[k1][k2]`. -/
def dget2 (st : Dict) (k1 k2 : String) : Option JVal :=
  match dget st k1 with
  | some (.obj d) => dget d k2
  | _ => none

/-- Three-level lookup `doc[k1][k2][k3]`. -/
def dget3 (st : Dict) (k1 k2 k3 : String) : Option JVal :=
  match dget2 st k1 k2 with
  | some (.obj d) => dget d k3
  | _ => none

/-- Shape test: is the value a dict? -/
def isObj : JVal → Bool
  | .obj _ => true
  | _ => false

/-- Shape test: neither a mapping nor a sequence nor a string (Python
`in` raises `TypeError` on these). -/
def isScalar : JVal → Bool
  | .null => true
  | .bool _ => true
  | .num _ => true
  | _ => false

/-- The value `_copySettings` leaves at key `k` when filling section `S`
with defaults `D`: keys outside `D` are untouched; a key the section
lacks receives the default verbatim; a key present in both keeps the
section's value, except that a dict-valued default triggers a recursive
fill. -/
def expectedRes (S D : Dict) (k : String) : Option JVal :=
  match dget D k with
  | none => dget S k
  | some (.obj dd) =>
    match dget S k with
    | none => some (.obj dd)
    | some sv => copySettings sv dd
  | some dv =>
    match dget S k with
    | none => some dv
    | some sv => some sv

/-! ## Proof layer -/

mutual
theorem jbeq_refl : ∀ v : JVal, jbeq v v = true
  | .null => by simp [jbeq]
  | .bool a => by simp [jbeq]
  | .num a => by simp [jbeq]
  | .str a => by simp [jbeq]
  | .arr xs => by simp [jbeq]; exact jbeqList_refl xs
  | .obj d => by simp [jbeq]; exact jbeqDict_refl d
termination_by v => sizeOf v

theorem jbeqList_refl : ∀ xs : List JVal, jbeqList xs xs = true
  | [] => by simp [jbeqList]
  | x :: xs => by simp [jbeqList]; exact ⟨jbeq_refl x, jbeqList_refl xs⟩
termination_by xs => sizeOf xs

theorem jbeqDict_refl : ∀ d : Dict, jbeqDict d d = true
  | [] => by simp [jbeqDict]
  | (k, v) :: rest => by
      simp [jbeqDict]; exact ⟨jbeq_refl v, jbeqDict_refl rest⟩
termination_by d => sizeOf d
end

/-! ## Dictionary lemmas -/

theorem dget_dset_self (d : Dict) (k : String) (v : JVal) :
    dget (dset d k v) k = some v := by
  induction d with
  | nil => simp [dget, dset]
  | cons kv rest ih =>
    obtain ⟨k', v'⟩ := kv
    by_cases h : k' = k <;> simp [dget, dset, h, ih]

theorem dget_dset_ne (d : Dict) (k k' : String) (v : JVal) (h : k ≠ k') :
    dget (dset d k v) k' = dget d k' := by
  induction d with
  | nil => simp [dget, dset, h]
  | cons kv rest ih =>
    obtain ⟨k0, v0⟩ := kv
    by_cases h0 : k0 = k
    · subst h0
      simp [dget, dset, h]
    · simp [dset, h0, dget, ih]

theorem dset_id (d : Dict) (k : String) (v : JVal) (h : dget d k = some v) :
    dset d k v = d := by
  induction d with
  | nil => simp [dget] at h
  | cons kv rest ih =>
    obtain ⟨k0, v0⟩ := kv
    by_cases h0 : k0 = k
    · subst h0
      simp [dget] at h
      simp [dset, h]
    · simp [dget, h0] at h
      simp [dset, h0, ih h]

theorem dmem_dset (d : Dict) (k k' : String) (v : JVal) :
    dmem (dset d k v) k' = ((k = k') || dmem d k') := by
  by_cases h : k = k'
  · subst h
    simp [dmem, dget_dset_self]
  · simp [dmem, dget_dset_ne d k k' v h, h]

theorem dmem_of_mem (d : Dict) (k : String) (v : JVal) (h : (k, v) ∈ d) :
    dmem d k = true := by
  induction d with
  | nil => simp at h
  | cons kv rest ih =>
    obtain ⟨k0, v0⟩ := kv
    rcases List.mem_cons.mp h with h1 | h1
    · cases h1
      simp [dmem, dget]
    · by_cases h0 : k0 = k
      · simp [dmem, dget, h0]
      · simpa [dmem, dget, h0] using ih h1

/-- In a dict with distinct keys a stored entry is what lookup finds. -/
theorem dget_of_mem_nodup (d : Dict) (k : String) (v : JVal)
    (hn : dnodup d = true) (h : (k, v) ∈ d) : dget d k = some v := by
  induction d with
  | nil => simp at h
  | cons kv rest ih =>
    obtain ⟨k0, v0⟩ := kv
    simp only [dnodup, Bool.and_eq_true, Bool.not_eq_true'] at hn
    rcases List.mem_cons.mp h with h1 | h1
    · cases h1
      simp [dget]
    · by_cases h0 : k0 = k
      · exfalso
        have hm := dmem_of_mem rest k v h1
        rw [h0, hm] at hn
        simp at hn
      · simp only [dget, h0, if_false]
        exact ih hn.2 h1

theorem jnodup_of_dget (d : Dict) (k : String) (v : JVal)
    (hn : dnodup d = true) (h : dget d k = some v) : jnodup v = true := by
  induction d with
  | nil => simp [dget] at h
  | cons kv rest ih =>
    obtain ⟨k0, v0⟩ := kv
    simp only [dnodup, Bool.and_eq_true, Bool.not_eq_true'] at hn
    by_cases h0 : k0 = k
    · simp [dget, h0] at h
      exact h ▸ hn.1.2
    · simp [dget, h0] at h
      exact ih hn.2 h

theorem dnodup_dset (d : Dict) (k : String) (v : JVal)
    (hn : dnodup d = true) (hv : jnodup v = true) :
    dnodup (dset d k v) = true := by
  induction d with
  | nil => simp [dset, dnodup, dmem, dget, hv]
  | cons kv rest ih =>
    obtain ⟨k0, v0⟩ := kv
    simp only [dnodup, Bool.and_eq_true, Bool.not_eq_true'] at hn
    by_cases h0 : k0 = k
    · subst h0
      simp [dset, dnodup, hn.1.1, hv, hn.2]
    · simp only [dset, h0, if_false]
      simp only [dnodup, Bool.and_eq_true, Bool.not_eq_true']
      refine ⟨⟨?_, hn.1.2⟩, ih hn.2⟩
      rw [dmem_dset]
      simp [hn.1.1, Ne.symm h0]

theorem dupdate_nil (d : Dict) : dupdate d [] = d := rfl

theorem dupdate_cons (d : Dict) (k : String) (v : JVal) (s : Dict) :
    dupdate d ((k, v) :: s) = dupdate (dset d k v) s := rfl

theorem dget_dupdate_not_mem (s : Dict) : ∀ d k, dmem s k = false →
    dget (dupdate d s) k = dget d k := by
  induction s with
  | nil => intro d k _; rfl
  | cons kv rest ih =>
    intro d k h
    obtain ⟨k0, v0⟩ := kv
    by_cases h0 : k0 = k
    · subst h0
      simp [dmem, dget] at h
    · rw [dupdate_cons, ih _ _ ?_, dget_dset_ne _ _ _ _ h0]
      simpa [dmem, dget, h0] using h

theorem dmem_dupdate (s : Dict) : ∀ d k,
    dmem (dupdate d s) k = (dmem d k || dmem s k) := by
  induction s with
  | nil => intro d k; simp [dupdate_nil, dmem, dget]
  | cons kv rest ih =>
    intro d k
    obtain ⟨k0, v0⟩ := kv
    rw [dupdate_cons, ih]
    by_cases h0 : k0 = k
    · subst h0
      simp [dmem_dset, dmem, dget, dget_dset_self]
    · simp [dmem_dset, dmem, dget, h0, dget_dset_ne d k0 k v0 h0]

theorem dget_dupdate_mem (s : Dict) : ∀ d k v, dnodup s = true →
    dget s k = some v → dget (dupdate d s) k = some v := by
  induction s with
  | nil => intro d k v _ h; simp [dget] at h
  | cons kv rest ih =>
    intro d k v hn h
    obtain ⟨k0, v0⟩ := kv
    simp only [dnodup, Bool.and_eq_true, Bool.not_eq_true'] at hn
    by_cases h0 : k0 = k
    · subst h0
      simp only [dget, if_pos rfl] at h
      cases h
      rw [dupdate_cons, dget_dupdate_not_mem _ _ _ hn.1.1, dget_dset_self]
    · simp only [dget, h0, if_false] at h
      rw [dupdate_cons, ih _ _ _ hn.2 h]

theorem dnodup_dupdate (s : Dict) : ∀ d, dnodup d = true → dnodup s = true →
    dnodup (dupdate d s) = true := by
  induction s with
  | nil => intro d hd _; exact hd
  | cons kv rest ih =>
    intro d hd hs
    obtain ⟨k0, v0⟩ := kv
    simp only [dnodup, Bool.and_eq_true, Bool.not_eq_true'] at hs
    rw [dupdate_cons]
    exact ih _ (dnodup_dset _ _ _ hd hs.1.2) hs.2

theorem jnodup_of_mem (d : Dict) (k : String) (v : JVal)
    (hn : dnodup d = true) (h : (k, v) ∈ d) : jnodup v = true :=
  jnodup_of_dget d k v hn (dget_of_mem_nodup d k v hn h)

/-! ## Characterisation of `_copySettings` -/

theorem copy_nil (lv : JVal) : copySettings lv [] = some lv := by
  cases lv <;> simp [copySettings]

theorem copy_cons_new (S : Dict) (k : String) (v : JVal) (rest : Dict)
    (h : dmem S k = false) :
    copySettings (.obj S) ((k, v) :: rest) = copySettings (.obj (dset S k v)) rest := by
  cases v <;> simp [copySettings, h]

theorem copy_cons_mem_obj (S : Dict) (k : String) (dd rest : Dict) (lv : JVal)
    (hg : dget S k = some lv) :
    copySettings (.obj S) ((k, .obj dd) :: rest) =
      (copySettings lv dd).bind fun r => copySettings (.obj (dset S k r)) rest := by
  have h : dmem S k = true := by simp [dmem, hg]
  simp [copySettings, h, hg]

theorem copy_cons_mem_nonobj (S : Dict) (k : String) (v : JVal) (rest : Dict)
    (h : dmem S k = true) (hv : isObj v = false) :
    copySettings (.obj S) ((k, v) :: rest) = copySettings (.obj S) rest := by
  cases v <;> simp_all [copySettings, isObj]

theorem copy_scalar_err (v : JVal) (hv : isScalar v = true) (k : String)
    (w : JVal) (rest : Dict) : copySettings v ((k, w) :: rest) = none := by
  cases v <;> simp_all [copySettings, isScalar]

theorem copy_obj_shape : ∀ (D S : Dict) (r : JVal),
    copySettings (.obj S) D = some r → ∃ rd : Dict, r = .obj rd := by
  intro D
  induction D with
  | nil =>
    intro S r h
    rw [copy_nil] at h
    exact ⟨S, (Option.some_inj.mp h).symm⟩
  | cons kv rest ih =>
    intro S r h
    obtain ⟨k, v⟩ := kv
    by_cases hm : dmem S k = true
    · cases hv : v with
      | obj dd =>
        obtain ⟨lv, hg⟩ := Option.isSome_iff_exists.mp hm
        rw [hv] at h
        rw [copy_cons_mem_obj S k dd rest lv hg] at h
        cases hc : copySettings lv dd with
        | none => rw [hc] at h; simp at h
        | some rv =>
          rw [hc] at h
          simp only [Option.some_bind] at h
          exact ih _ _ h
      | null =>
        rw [hv, copy_cons_mem_nonobj S k JVal.null rest hm rfl] at h
        exact ih _ _ h
      | bool b =>
        rw [hv, copy_cons_mem_nonobj S k (JVal.bool b) rest hm rfl] at h
        exact ih _ _ h
      | num n =>
        rw [hv, copy_cons_mem_nonobj S k (JVal.num n) rest hm rfl] at h
        exact ih _ _ h
      | str s =>
        rw [hv, copy_cons_mem_nonobj S k (JVal.str s) rest hm rfl] at h
        exact ih _ _ h
      | arr xs =>
        rw [hv, copy_cons_mem_nonobj S k (JVal.arr xs) rest hm rfl] at h
        exact ih _ _ h
    · rw [copy_cons_new S k v rest (by simpa using hm)] at h
      exact ih _ _ h

theorem expectedRes_congr (S1 S2 D1 D2 : Dict) (k : String)
    (h1 : dget S1 k = dget S2 k) (h2 : dget D1 k = dget D2 k) :
    expectedRes S1 D1 k = expectedRes S2 D2 k := by
  simp only [expectedRes, h1, h2]

/-- Helper: `dmem d k = false` gives `dget d k = none`. -/
theorem dget_none_of_not_dmem (d : Dict) (k : String) (h : dmem d k = false) :
    dget d k = none := by
  cases hg : dget d k with
  | none => rfl
  | some w => rw [show dmem d k = true by simp [dmem, hg]] at h; simp at h

/-- Processing a default entry whose key the section lacks shifts
`expectedRes` onto the inserted section. -/
theorem expectedRes_insert (S rest : Dict) (k0 k : String) (v0 : JVal)
    (hrest : dget rest k0 = none) (hS : dget S k0 = none) :
    expectedRes S ((k0, v0) :: rest) k = expectedRes (dset S k0 v0) rest k := by
  by_cases hk : k0 = k
  · subst hk
    cases v0 <;> simp [expectedRes, dget, hrest, hS, dget_dset_self]
  · refine expectedRes_congr _ _ _ _ _ ?_ ?_
    · exact (dget_dset_ne S k0 k v0 hk).symm
    · simp [dget, hk]

/-- Processing a non-dict default entry whose key the section already
has leaves `expectedRes` unchanged. -/
theorem expectedRes_skip (S rest : Dict) (k0 k : String) (v0 lv : JVal)
    (hv : isObj v0 = false) (hrest : dget rest k0 = none)
    (hg : dget S k0 = some lv) :
    expectedRes S ((k0, v0) :: rest) k = expectedRes S rest k := by
  by_cases hk : k0 = k
  · subst hk
    cases v0 <;> simp_all [expectedRes, dget, isObj]
  · exact expectedRes_congr _ _ _ _ _ rfl (by simp [dget, hk])

/-- Processing a dict default entry whose key the section has shifts
`expectedRes` onto the recursively filled section. -/
theorem expectedRes_recfill (S rest : Dict) (k0 k : String) (dd : Dict)
    (lv rv : JVal) (hrest : dget rest k0 = none) (hg : dget S k0 = some lv)
    (hc : copySettings lv dd = some rv) :
    expectedRes S ((k0, .obj dd) :: rest) k = expectedRes (dset S k0 rv) rest k := by
  by_cases hk : k0 = k
  · subst hk
    simp [expectedRes, dget, hrest, hg, hc, dget_dset_self]
  · refine expectedRes_congr _ _ _ _ _ ?_ ?_
    · exact (dget_dset_ne S k0 k rv hk).symm
    · simp [dget, hk]

theorem mem_of_dget (d : Dict) (k : String) (v : JVal) (h : dget d k = some v) :
    (k, v) ∈ d := by
  induction d with
  | nil => simp [dget] at h
  | cons kv rest ih =>
    obtain ⟨k0, v0⟩ := kv
    by_cases h0 : k0 = k
    · subst h0
      simp only [dget, if_pos rfl] at h
      cases h
      exact List.mem_cons_self _ _
    · simp only [dget, h0, if_false] at h
      exact List.mem_cons_of_mem _ (ih h)

theorem sizeOf_snd_lt_of_mem (d : Dict) (k : String) (v : JVal)
    (h : (k, v) ∈ d) : sizeOf v < sizeOf d := by
  induction d with
  | nil => simp at h
  | cons kv rest ih =>
    rcases List.mem_cons.mp h with h1 | h1
    · subst h1
      simp
      omega
    · have := ih h1
      simp
      omega

theorem shapeOk_nil (S : Dict) : shapeOk S [] = true := by
  simp [shapeOk]

theorem shapeOk_cons (S : Dict) (k : String) (v : JVal) (rest : Dict) :
    shapeOk S ((k, v) :: rest) =
      ((match v with
        | JVal.obj dd =>
          match dget S k with
          | none => true
          | some (JVal.obj sd) => shapeOk sd dd
          | some _ => false
        | _ => true) && shapeOk S rest) := by
  cases v <;> simp [shapeOk]

theorem shapeOk_congr (D : Dict) : ∀ S1 S2 : Dict,
    (∀ k v, (k, v) ∈ D → dget S1 k = dget S2 k) →
    shapeOk S1 D = shapeOk S2 D := by
  induction D with
  | nil => intro S1 S2 _; rw [shapeOk_nil, shapeOk_nil]
  | cons kv rest ih =>
    intro S1 S2 h
    obtain ⟨k0, v0⟩ := kv
    rw [shapeOk_cons, shapeOk_cons]
    rw [ih S1 S2 fun k v hm => h k v (List.mem_cons_of_mem _ hm)]
    congr 1
    cases v0 <;> try rfl
    rw [h k0 _ (List.mem_cons_self _ _)]

theorem shapeOk_mem (D : Dict) : ∀ (S : Dict) (k : String) (dd : Dict),
    shapeOk S D = true → (k, .obj dd) ∈ D →
    dget S k = none ∨ ∃ sd, dget S k = some (.obj sd) ∧ shapeOk sd dd = true := by
  induction D with
  | nil => intro S k dd _ hm; simp at hm
  | cons kv rest ih =>
    intro S k dd hs hm
    obtain ⟨k0, v0⟩ := kv
    rw [shapeOk_cons, Bool.and_eq_true] at hs
    rcases List.mem_cons.mp hm with h1 | h1
    · cases h1
      cases hg : dget S k with
      | none => exact Or.inl rfl
      | some sv =>
        rw [hg] at hs
        cases sv with
        | obj sd => exact Or.inr ⟨sd, rfl, hs.1⟩
        | null => simp at hs
        | bool b => simp at hs
        | num n => simp at hs
        | str s => simp at hs
        | arr xs => simp at hs
    · exact ih S k dd hs.2 h1

/-- Totality: under the shape precondition the recursive fill of a dict
section never reaches an error. -/
theorem copy_total (D S : Dict) (hn : dnodup D = true) (hs : shapeOk S D = true) :
    ∃ r : Dict, copySettings (.obj S) D = some (.obj r) := by
  match D, hn, hs with
  | [], _, _ => exact ⟨S, copy_nil _⟩
  | (k0, v0) :: rest, hn, hs =>
    simp only [dnodup, Bool.and_eq_true, Bool.not_eq_true'] at hn
    rw [shapeOk_cons, Bool.and_eq_true] at hs
    have hfresh : ∀ k v, (k, v) ∈ rest → k ≠ k0 := by
      intro k v hm he
      have := dmem_of_mem rest k v hm
      rw [he, hn.1.1] at this
      simp at this
    by_cases hm : dmem S k0 = true
    · obtain ⟨lv, hg⟩ := Option.isSome_iff_exists.mp hm
      cases hv : v0 with
      | obj dd =>
        subst hv
        rw [hg] at hs
        cases lv with
        | obj sd =>
          have hndd : dnodup dd = true := by
            simpa [jnodup] using hn.1.2
          have hs1 : shapeOk sd dd = true := by simpa using hs.1
          obtain ⟨rd, hrd⟩ := copy_total dd sd hndd hs1
          rw [copy_cons_mem_obj S k0 dd rest (.obj sd) hg, hrd]
          simp only [Option.some_bind]
          refine copy_total rest (dset S k0 (.obj rd)) hn.2 ?_
          rw [shapeOk_congr rest (dset S k0 (.obj rd)) S
            fun k v hmem => dget_dset_ne S k0 k _ (Ne.symm (hfresh k v hmem))]
          exact hs.2
        | null => simp at hs
        | bool b => simp at hs
        | num n => simp at hs
        | str s => simp at hs
        | arr xs => simp at hs
      | null =>
        rw [copy_cons_mem_nonobj S k0 JVal.null rest hm rfl]
        exact copy_total rest S hn.2 hs.2
      | bool b =>
        rw [copy_cons_mem_nonobj S k0 (JVal.bool b) rest hm rfl]
        exact copy_total rest S hn.2 hs.2
      | num n =>
        rw [copy_cons_mem_nonobj S k0 (JVal.num n) rest hm rfl]
        exact copy_total rest S hn.2 hs.2
      | str s =>
        rw [copy_cons_mem_nonobj S k0 (JVal.str s) rest hm rfl]
        exact copy_total rest S hn.2 hs.2
      | arr xs =>
        rw [copy_cons_mem_nonobj S k0 (JVal.arr xs) rest hm rfl]
        exact copy_total rest S hn.2 hs.2
    · have hm' : dmem S k0 = false := by simpa using hm
      rw [copy_cons_new S k0 v0 rest hm']
      refine copy_total rest (dset S k0 v0) hn.2 ?_
      rw [shapeOk_congr rest (dset S k0 v0) S
        fun k v hmem => dget_dset_ne S k0 k _ (Ne.symm (hfresh k v hmem))]
      exact hs.2
termination_by sizeOf D

theorem fillKeysOk_cons (S r : Dict) (k : String) (dv : JVal) (rest : Dict) :
    fillKeysOk S ((k, dv) :: rest) r = (checkOne S r k dv && fillKeysOk S rest r) := by
  simp [fillKeysOk]

theorem fillKeysOk_of_forall (S r : Dict) : ∀ D' : Dict,
    (∀ kv, kv ∈ D' → checkOne S r kv.1 kv.2 = true) → fillKeysOk S D' r = true := by
  intro D'
  induction D' with
  | nil => intro _; simp [fillKeysOk]
  | cons kv rest ih =>
    intro h
    obtain ⟨k, dv⟩ := kv
    rw [fillKeysOk_cons, Bool.and_eq_true]
    exact ⟨h (k, dv) (List.mem_cons_self _ _),
      ih fun kv hm => h kv (List.mem_cons_of_mem _ hm)⟩

/-- Per-key characterisation of a successful `_copySettings` run on a
dict section. -/
theorem copy_get : ∀ (D : Dict), dnodup D = true → ∀ (S r : Dict),
    copySettings (.obj S) D = some (.obj r) → ∀ k, dget r k = expectedRes S D k := by
  intro D
  induction D with
  | nil =>
    intro _ S r h k
    rw [copy_nil] at h
    cases Option.some_inj.mp h
    simp [expectedRes, dget]
  | cons kv rest ih =>
    intro hn S r h k
    obtain ⟨k0, v0⟩ := kv
    simp only [dnodup, Bool.and_eq_true, Bool.not_eq_true'] at hn
    have hrestget : dget rest k0 = none := dget_none_of_not_dmem rest k0 hn.1.1
    by_cases hm : dmem S k0 = true
    · obtain ⟨lv, hg⟩ := Option.isSome_iff_exists.mp hm
      cases hv : v0 with
      | obj dd =>
        rw [hv] at h
        rw [copy_cons_mem_obj S k0 dd rest lv hg] at h
        cases hc : copySettings lv dd with
        | none => rw [hc] at h; simp at h
        | some rv =>
          rw [hc] at h
          simp only [Option.some_bind] at h
          rw [ih hn.2 _ _ h k]
          exact (expectedRes_recfill S rest k0 k dd lv rv hrestget hg hc).symm
      | null =>
        rw [hv, copy_cons_mem_nonobj S k0 JVal.null rest hm rfl] at h
        rw [ih hn.2 _ _ h k]
        exact (expectedRes_skip S rest k0 k JVal.null lv rfl hrestget hg).symm
      | bool b =>
        rw [hv, copy_cons_mem_nonobj S k0 (JVal.bool b) rest hm rfl] at h
        rw [ih hn.2 _ _ h k]
        exact (expectedRes_skip S rest k0 k (JVal.bool b) lv rfl hrestget hg).symm
      | num n =>
        rw [hv, copy_cons_mem_nonobj S k0 (JVal.num n) rest hm rfl] at h
        rw [ih hn.2 _ _ h k]
        exact (expectedRes_skip S rest k0 k (JVal.num n) lv rfl hrestget hg).symm
      | str s =>
        rw [hv, copy_cons_mem_nonobj S k0 (JVal.str s) rest hm rfl] at h
        rw [ih hn.2 _ _ h k]
        exact (expectedRes_skip S rest k0 k (JVal.str s) lv rfl hrestget hg).symm
      | arr xs =>
        rw [hv, copy_cons_mem_nonobj S k0 (JVal.arr xs) rest hm rfl] at h
        rw [ih hn.2 _ _ h k]
        exact (expectedRes_skip S rest k0 k (JVal.arr xs) lv rfl hrestget hg).symm
    · have hm' : dmem S k0 = false := by simpa using hm
      rw [copy_cons_new S k0 v0 rest hm'] at h
      rw [ih hn.2 _ _ h k]
      exact (expectedRes_insert S rest k0 k v0 hrestget
        (dget_none_of_not_dmem S k0 hm')).symm

/-- The spec of the default-filling accessor holds of the code: a
successful `_copySettings` run produces a section satisfying
`fillSpecB`. -/
theorem fill_spec (D S r : Dict) (hnD : dnodup D = true) (hnS : dnodup S = true)
    (hs : shapeOk S D = true) (h : copySettings (.obj S) D = some (.obj r)) :
    fillSpecB S D r = true := by
  rw [fillSpecB, Bool.and_eq_true]
  constructor
  · apply fillKeysOk_of_forall
    intro kv hkv
    obtain ⟨k, dv⟩ := kv
    have hD : dget D k = some dv := dget_of_mem_nodup D k dv hnD hkv
    have hr := copy_get D hnD S r h k
    simp only [expectedRes, hD] at hr
    cases dv with
    | obj dd =>
      cases hS : dget S k with
      | none =>
        rw [hS] at hr
        simp [checkOne, hr, hS, jbeq_refl]
      | some sv =>
        rcases shapeOk_mem D S k dd hs hkv with h0 | ⟨sd, hsd, hsOk⟩
        · simp [h0] at hS
        · have hndd : dnodup dd = true := by
            simpa [jnodup] using jnodup_of_mem D k (.obj dd) hnD hkv
          have hnsd : dnodup sd = true := by
            simpa [jnodup] using jnodup_of_dget S k (.obj sd) hnS hsd
          obtain ⟨rd2, hrd2⟩ := copy_total dd sd hndd hsOk
          have hr2 : dget r k = some (.obj rd2) := by
            rw [copy_get D hnD S r h k]
            simp [expectedRes, hD, hsd, hrd2]
          have hrec := fill_spec dd sd rd2 hndd hnsd hsOk hrd2
          rw [fillSpecB, Bool.and_eq_true] at hrec
          simp [checkOne, hr2, hsd, hrec.1]
    | null =>
      cases hS : dget S k with
      | none => rw [hS] at hr; simp [checkOne, hr, hS, jbeq_refl]
      | some sv => rw [hS] at hr; simp [checkOne, hr, hS, jbeq_refl]
    | bool b =>
      cases hS : dget S k with
      | none => rw [hS] at hr; simp [checkOne, hr, hS, jbeq_refl]
      | some sv => rw [hS] at hr; simp [checkOne, hr, hS, jbeq_refl]
    | num n =>
      cases hS : dget S k with
      | none => rw [hS] at hr; simp [checkOne, hr, hS, jbeq_refl]
      | some sv => rw [hS] at hr; simp [checkOne, hr, hS, jbeq_refl]
    | str s =>
      cases hS : dget S k with
      | none => rw [hS] at hr; simp [checkOne, hr, hS, jbeq_refl]
      | some sv => rw [hS] at hr; simp [checkOne, hr, hS, jbeq_refl]
    | arr xs =>
      cases hS : dget S k with
      | none => rw [hS] at hr; simp [checkOne, hr, hS, jbeq_refl]
      | some sv => rw [hS] at hr; simp [checkOne, hr, hS, jbeq_refl]
  · simp only [keepKeysOk, List.all_eq_true]
    intro kv hkv
    obtain ⟨k, sv⟩ := kv
    have hS : dget S k = some sv := dget_of_mem_nodup S k sv hnS hkv
    have hr := copy_get D hnD S r h k
    cases hD : dget D k with
    | none =>
      simp only [expectedRes, hD] at hr
      rw [hS] at hr
      simp [hr, jbeq_refl]
    | some dv =>
      have hmemD : dmem D k = true := by simp [dmem, hD]
      simp only [expectedRes, hD] at hr
      cases dv with
      | obj dd =>
        rcases shapeOk_mem D S k dd hs (mem_of_dget D k _ hD) with h0 | ⟨sd, hsd, hsOk⟩
        · simp [h0] at hS
        · have hndd : dnodup dd = true := by
            simpa [jnodup] using jnodup_of_mem D k (.obj dd) hnD (mem_of_dget D k _ hD)
          obtain ⟨rd2, hrd2⟩ := copy_total dd sd hndd hsOk
          have hr2 : dget r k = some (.obj rd2) := by
            rw [copy_get D hnD S r h k]
            simp [expectedRes, hD, hsd, hrd2]
          simp [hr2, hmemD]
      | null => rw [hS] at hr; simp [hr, hmemD]
      | bool b => rw [hS] at hr; simp [hr, hmemD]
      | num n => rw [hS] at hr; simp [hr, hmemD]
      | str s => rw [hS] at hr; simp [hr, hmemD]
      | arr xs => rw [hS] at hr; simp [hr, hmemD]
termination_by sizeOf D
decreasing_by
  have h1 := sizeOf_snd_lt_of_mem D k (JVal.obj dd) hkv
  simp at h1
  omega

/-- Filling a dict with a template consisting of its own stored entries
is the identity (the refill loop of `_readConfig` passes a section as
its own default template). -/
theorem self_fill (D S : Dict) (hn : dnodup D = true)
    (hvals : ∀ kv, kv ∈ D → dget S kv.1 = some kv.2) :
    copySettings (.obj S) D = some (.obj S) := by
  match D, hn, hvals with
  | [], _, _ => exact copy_nil _
  | (k, v) :: rest, hn, hvals =>
    simp only [dnodup, Bool.and_eq_true, Bool.not_eq_true'] at hn
    have hg : dget S k = some v := hvals (k, v) (List.mem_cons_self _ _)
    have hm : dmem S k = true := by simp [dmem, hg]
    have hrest : ∀ kv, kv ∈ rest → dget S kv.1 = some kv.2 :=
      fun kv hkv => hvals kv (List.mem_cons_of_mem _ hkv)
    cases hv : v with
    | obj dd =>
      rw [hv] at hg
      have hj : dnodup dd = true := by
        have := hn.1.2
        rw [hv] at this
        simpa [jnodup] using this
      have hself : copySettings (.obj dd) dd = some (.obj dd) :=
        self_fill dd dd hj fun kv hkv => dget_of_mem_nodup dd kv.1 kv.2 hj hkv
      rw [copy_cons_mem_obj S k dd rest (.obj dd) hg, hself]
      simp only [Option.some_bind]
      rw [dset_id S k (.obj dd) hg]
      exact self_fill rest S hn.2 hrest
    | null =>
      rw [copy_cons_mem_nonobj S k JVal.null rest hm rfl]
      exact self_fill rest S hn.2 hrest
    | bool b =>
      rw [copy_cons_mem_nonobj S k (JVal.bool b) rest hm rfl]
      exact self_fill rest S hn.2 hrest
    | num n =>
      rw [copy_cons_mem_nonobj S k (JVal.num n) rest hm rfl]
      exact self_fill rest S hn.2 hrest
    | str s =>
      rw [copy_cons_mem_nonobj S k (JVal.str s) rest hm rfl]
      exact self_fill rest S hn.2 hrest
    | arr xs =>
      rw [copy_cons_mem_nonobj S k (JVal.arr xs) rest hm rfl]
      exact self_fill rest S hn.2 hrest
termination_by sizeOf D
decreasing_by
  all_goals (rw [hv]; simp; try omega)

/-- The refill loop of `_readConfig` leaves a well-formed document
unchanged: each section is refilled against itself, a no-op. -/
theorem refill_noop (st : Dict) (hst : dnodup st = true) :
    ∀ ks : List String, refillLoop st ks = some st := by
  intro ks
  induction ks with
  | nil => rfl
  | cons k ks ih =>
    cases hg : dget st k with
    | none => simp [refillLoop, hg, ih]
    | some v =>
      cases v with
      | obj d =>
        have hd : dnodup d = true := by
          simpa [jnodup] using jnodup_of_dget st k _ hst hg
        have hself := self_fill d d hd fun kv hkv =>
          dget_of_mem_nodup d kv.1 kv.2 hd hkv
        simp [refillLoop, hg, loadSectionSettings, hself, dset_id st k _ hg, ih]
      | null => simp [refillLoop, hg, ih]
      | bool b => simp [refillLoop, hg, ih]
      | num n => simp [refillLoop, hg, ih]
      | str s => simp [refillLoop, hg, ih]
      | arr xs => simp [refillLoop, hg, ih]

/-- The error case of the recursive fill: a scalar (non-mapping,
non-string, non-sequence) persisted value at a key whose default is a
*nonempty* mapping makes `_copySettings` raise. -/
theorem copy_err (D : Dict) : ∀ S : Dict, dnodup D = true →
    ∀ (k : String) (v : JVal) (dd : Dict), (k, .obj dd) ∈ D → dd ≠ [] →
    dget S k = some v → isScalar v = true → copySettings (.obj S) D = none := by
  induction D with
  | nil => intro S _ k v dd hm; simp at hm
  | cons kv rest ih =>
    intro S hn k v dd hm hdd hg hv
    obtain ⟨k0, v0⟩ := kv
    simp only [dnodup, Bool.and_eq_true, Bool.not_eq_true'] at hn
    rcases List.mem_cons.mp hm with h1 | h1
    · injection h1 with hk hv0
      subst hk
      subst hv0
      rw [copy_cons_mem_obj S k dd rest v hg]
      cases dd with
      | nil => exact absurd rfl hdd
      | cons d0 dd2 =>
        obtain ⟨kk, ww⟩ := d0
        rw [copy_scalar_err v hv kk ww dd2]
        rfl
    · have hkne : k ≠ k0 := by
        intro he
        have := dmem_of_mem rest k (.obj dd) h1
        rw [he, hn.1.1] at this
        simp at this
      by_cases hm0 : dmem S k0 = true
      · obtain ⟨lv0, hg0⟩ := Option.isSome_iff_exists.mp hm0
        cases hv0c : v0 with
        | obj dd0 =>
          rw [copy_cons_mem_obj S k0 dd0 rest lv0 hg0]
          cases hc : copySettings lv0 dd0 with
          | none => rfl
          | some rv =>
            simp only [Option.some_bind]
            refine ih (dset S k0 rv) hn.2 k v dd h1 hdd ?_ hv
            rw [dget_dset_ne S k0 k rv (Ne.symm hkne)]
            exact hg
        | null =>
          rw [copy_cons_mem_nonobj S k0 JVal.null rest hm0 rfl]
          exact ih S hn.2 k v dd h1 hdd hg hv
        | bool b =>
          rw [copy_cons_mem_nonobj S k0 (JVal.bool b) rest hm0 rfl]
          exact ih S hn.2 k v dd h1 hdd hg hv
        | num n =>
          rw [copy_cons_mem_nonobj S k0 (JVal.num n) rest hm0 rfl]
          exact ih S hn.2 k v dd h1 hdd hg hv
        | str s =>
          rw [copy_cons_mem_nonobj S k0 (JVal.str s) rest hm0 rfl]
          exact ih S hn.2 k v dd h1 hdd hg hv
        | arr xs =>
          rw [copy_cons_mem_nonobj S k0 (JVal.arr xs) rest hm0 rfl]
          exact ih S hn.2 k v dd h1 hdd hg hv
      · have hm0f : dmem S k0 = false := by simpa using hm0
        rw [copy_cons_new S k0 v0 rest hm0f]
        refine ih (dset S k0 v0) hn.2 k v dd h1 hdd ?_ hv
        rw [dget_dset_ne S k0 k v0 (Ne.symm hkne)]
        exact hg

/-! ## Lemmas about the legacy migration -/

theorem migGui_get_ne (s1 t : Dict) (h : migGui s1 = some t) (k : String)
    (hk : k ≠ "MainWindow") : dget t k = dget s1 k := by
  unfold migGui at h
  split at h
  · cases Option.some_inj.mp h
    rfl
  · split at h
    · cases Option.some_inj.mp h
      exact dget_dset_ne s1 "MainWindow" k _ fun he => hk he.symm
    · exact absurd h (by simp)
  · exact absurd h (by simp)

theorem migrateBody_parts (s t : Dict) (h : migrateBody s = some t) :
    ∃ sv1 sv2, migServers1 s = some sv1 ∧ migServers2 s sv1 = some sv2 ∧
      migGui (dset s "Servers" sv2) = some t := by
  unfold migrateBody at h
  cases hm1 : migServers1 s with
  | none => rw [hm1] at h; simp at h
  | some sv1 =>
    rw [hm1] at h
    simp only [Option.some_bind] at h
    cases hm2 : migServers2 s sv1 with
    | none => rw [hm2] at h; simp at h
    | some sv2 =>
      rw [hm2] at h
      simp only [Option.some_bind] at h
      exact ⟨sv1, sv2, rfl, hm2, h⟩

theorem migrateBody_get_ne (s t : Dict) (h : migrateBody s = some t)
    (k : String) (h1 : k ≠ "Servers") (h2 : k ≠ "MainWindow") :
    dget t k = dget s k := by
  obtain ⟨sv1, sv2, _, _, hg⟩ := migrateBody_parts s t h
  rw [migGui_get_ne _ t hg k h2]
  exact dget_dset_ne s "Servers" k sv2 fun he => h1 he.symm

theorem migServers1_again (s t : Dict) (sv1 sv2 : JVal)
    (hm1 : migServers1 s = some sv1) (hm2 : migServers2 s sv1 = some sv2)
    (hLS : dget t "LocalServer" = dget s "LocalServer")
    (hSrv : dget t "Servers" = some sv2) :
    migServers1 t = some sv2 := by
  unfold migServers1 at hm1 ⊢
  rw [hLS, hSrv]
  simp only [Option.getD_some]
  cases hls : dget s "LocalServer" with
  | none => simp
  | some ls =>
    rw [hls] at hm1
    simp only [] at hm1 ⊢
    cases hsv0 : (dget s "Servers").getD (.obj []) with
    | obj sd =>
      rw [hsv0] at hm1
      simp only [] at hm1
      cases hlsv : migLocalServerVal ls with
      | none => rw [hlsv] at hm1; simp at hm1
      | some lsv =>
        rw [hlsv] at hm1
        simp only [Option.some_bind] at hm1
        have hsv1 : sv1 = .obj (dset sd "local_server" lsv) :=
          (Option.some_inj.mp hm1).symm
        have key : ∃ sd2, sv2 = .obj sd2 ∧ dget sd2 "local_server" = some lsv := by
          unfold migServers2 at hm2
          cases hrs : dget s "RemoteServers" with
          | none =>
            rw [hrs] at hm2
            simp only [] at hm2
            refine ⟨dset sd "local_server" lsv, ?_, dget_dset_self _ _ _⟩
            rw [← (Option.some_inj.mp hm2), hsv1]
          | some rs =>
            rw [hrs, hsv1] at hm2
            simp only [] at hm2
            refine ⟨dset (dset sd "local_server" lsv) "remote_servers" rs, ?_, ?_⟩
            · exact (Option.some_inj.mp hm2).symm
            · rw [dget_dset_ne _ "remote_servers" "local_server" _ (by decide)]
              exact dget_dset_self _ _ _
        obtain ⟨sd2, hsd2, hget2⟩ := key
        rw [hsd2]
        simp only [Option.some_bind]
        rw [dset_id sd2 "local_server" lsv hget2]
    | null => rw [hsv0] at hm1; simp at hm1
    | bool b => rw [hsv0] at hm1; simp at hm1
    | num n => rw [hsv0] at hm1; simp at hm1
    | str st => rw [hsv0] at hm1; simp at hm1
    | arr xs => rw [hsv0] at hm1; simp at hm1

theorem migServers2_again (s t : Dict) (sv1 sv2 : JVal)
    (hm2 : migServers2 s sv1 = some sv2)
    (hRS : dget t "RemoteServers" = dget s "RemoteServers") :
    migServers2 t sv2 = some sv2 := by
  unfold migServers2 at hm2 ⊢
  rw [hRS]
  cases hrs : dget s "RemoteServers" with
  | none => rfl
  | some rs =>
    rw [hrs] at hm2
    simp only [] at hm2 ⊢
    cases sv1 with
    | obj sd1 =>
      simp only [] at hm2
      have h2 : sv2 = .obj (dset sd1 "remote_servers" rs) :=
        (Option.some_inj.mp hm2).symm
      rw [h2]
      simp only []
      rw [dset_id _ "remote_servers" rs (dget_dset_self _ _ _)]
    | null => simp at hm2
    | bool b => simp at hm2
    | num n => simp at hm2
    | str st => simp at hm2
    | arr xs => simp at hm2

theorem migGui_again (s1 t : Dict) (hgui : migGui s1 = some t) :
    migGui t = some t := by
  unfold migGui at hgui
  cases hg : dget s1 "GUI" with
  | none =>
    rw [hg] at hgui
    simp only [] at hgui
    obtain rfl : s1 = t := Option.some_inj.mp hgui
    unfold migGui
    rw [hg]
  | some gv =>
    rw [hg] at hgui
    cases gv with
    | obj gd =>
      simp only [] at hgui
      cases hmw : (dget s1 "MainWindow").getD (.obj []) with
      | obj md =>
        rw [hmw] at hgui
        simp only [] at hgui
        have ht : t = dset s1 "MainWindow"
            (.obj (dset md "hide_getting_started_dialog"
              ((dget gd "hide_getting_started_dialog").getD (.bool false)))) :=
          (Option.some_inj.mp hgui).symm
        have hgt : dget t "GUI" = some (.obj gd) := by
          rw [ht, dget_dset_ne s1 "MainWindow" "GUI" _ (by decide)]
          exact hg
        have hmwt : dget t "MainWindow" = some (.obj (dset md
            "hide_getting_started_dialog"
            ((dget gd "hide_getting_started_dialog").getD (.bool false)))) := by
          rw [ht, dget_dset_self]
        unfold migGui
        rw [hgt]
        simp only [hmwt, Option.getD_some]
        rw [dset_id _ "hide_getting_started_dialog" _ (dget_dset_self _ _ _)]
        rw [dset_id t "MainWindow" _ hmwt]
      | null => rw [hmw] at hgui; simp at hgui
      | bool b => rw [hmw] at hgui; simp at hgui
      | num n => rw [hmw] at hgui; simp at hgui
      | str st => rw [hmw] at hgui; simp at hgui
      | arr xs => rw [hmw] at hgui; simp at hgui
    | null => simp at hgui
    | bool b => simp at hgui
    | num n => simp at hgui
    | str st => simp at hgui
    | arr xs => simp at hgui

/-- One migration body run is a fixed point of a second run. -/
theorem migrateBody_idem (s t : Dict) (h : migrateBody s = some t) :
    migrateBody t = some t := by
  obtain ⟨sv1, sv2, hm1, hm2, hgui⟩ := migrateBody_parts s t h
  have hLS : dget t "LocalServer" = dget s "LocalServer" :=
    migrateBody_get_ne s t h _ (by decide) (by decide)
  have hRS : dget t "RemoteServers" = dget s "RemoteServers" :=
    migrateBody_get_ne s t h _ (by decide) (by decide)
  have hSrv : dget t "Servers" = some sv2 := by
    rw [migGui_get_ne _ t hgui "Servers" (by decide), dget_dset_self]
  have hA := migServers1_again s t sv1 sv2 hm1 hm2 hLS hSrv
  have hB := migServers2_again s t sv1 sv2 hm2 hRS
  unfold migrateBody
  rw [hA]
  simp only [Option.some_bind]
  rw [hB]
  simp only [Option.some_bind]
  rw [dset_id t "Servers" sv2 hSrv]
  exact migGui_again _ t hgui

theorem shouldMigrate_congr (s t : Dict)
    (h : dget t "version" = dget s "version") :
    shouldMigrate t = shouldMigrate s := by
  unfold shouldMigrate
  rw [h]

/-- Applying `_migrateOldConfig` a second time is a no-op (also through
the error cases). -/
theorem migrate_bind_idem (s : Dict) :
    (migrateOldConfig s).bind migrateOldConfig = migrateOldConfig s := by
  cases hsm : shouldMigrate s with
  | none =>
    unfold migrateOldConfig
    rw [hsm]
    rfl
  | some b =>
    cases b with
    | false =>
      have hself : migrateOldConfig s = some s := by
        unfold migrateOldConfig
        rw [hsm]
        rfl
      rw [hself, Option.some_bind, hself]
    | true =>
      cases hb : migrateBody s with
      | none =>
        have hnone : migrateOldConfig s = none := by
          unfold migrateOldConfig
          rw [hsm]
          simp [hb]
        rw [hnone]
        rfl
      | some t =>
        have hsome : migrateOldConfig s = some t := by
          unfold migrateOldConfig
          rw [hsm]
          simp [hb]
        rw [hsome, Option.some_bind]
        have hver : dget t "version" = dget s "version" :=
          migrateBody_get_ne s t hb _ (by decide) (by decide)
        unfold migrateOldConfig
        rw [shouldMigrate_congr s t hver, hsm]
        simp [migrateBody_idem s t hb]

/-- When the stored version is a string not below the cutoff, the guard
stops the migration and the document is returned unchanged. -/
theorem migrate_noop_of_version (s : Dict) (v : String)
    (hg : dget s "version" = some (.str v))
    (hge : versionLt v "1.4.0" = false) :
    migrateOldConfig s = some s := by
  unfold migrateOldConfig shouldMigrate
  rw [hg]
  simp [hge]

/-! ## Lemmas about `_readConfig` -/

theorem readConfig_openFail (cs : ConfigState)
    (h : dnodup cs.settings = true) :
    readConfig cs .openFail = some cs := by
  unfold readConfig readTryBlock
  simp only []
  rw [refill_noop cs.settings h]

theorem readConfig_parseFail (cs : ConfigState) (m : Int)
    (h : dnodup cs.settings = true) :
    readConfig cs (.parseFail m) = some ⟨cs.settings, some m⟩ := by
  unfold readConfig readTryBlock
  simp only []
  rw [refill_noop cs.settings h]

theorem readConfig_obj (cs : ConfigState) (m : Int) (d : Dict)
    (h1 : dnodup cs.settings = true) (h2 : dnodup d = true) :
    readConfig cs (.parsed m (.obj d)) = some ⟨dupdate cs.settings d, some m⟩ := by
  unfold readConfig readTryBlock settingsUpdate
  simp only []
  rw [refill_noop (dupdate cs.settings d) (dnodup_dupdate d cs.settings h1 h2)]

theorem readConfig_num (cs : ConfigState) (m : Int) (n : Int) :
    readConfig cs (.parsed m (.num n)) = none := rfl

/-! ## Lemmas about the mutators -/

theorem dget_ensure (st : Dict) (sec : String) :
    dget (ensureSection st sec) sec = some ((dget st sec).getD (.obj [])) := by
  unfold ensureSection
  by_cases h : dmem st sec = true
  · rw [if_pos h]
    obtain ⟨v, hv⟩ := Option.isSome_iff_exists.mp h
    rw [hv]
    rfl
  · have h' : dmem st sec = false := by simpa using h
    rw [h']
    simp only [Bool.false_eq_true, if_false, dget_dset_self]
    have := dget_none_of_not_dmem st sec h'
    rw [this]
    rfl

theorem currentSection_eq (st : Dict) (sec : String) :
    currentSection st sec = (dget st sec).getD (.obj []) := by
  unfold currentSection
  rw [dget_ensure]
  rfl

theorem currentSection_shape (st : Dict) (sec : String)
    (h : sectionShape st sec = true) :
    ∃ d : Dict, currentSection st sec = .obj d := by
  rw [currentSection_eq]
  unfold sectionShape at h
  cases hg : dget st sec with
  | none => exact ⟨[], rfl⟩
  | some v =>
    rw [hg] at h
    cases v with
    | obj d => exact ⟨d, rfl⟩
    | null => simp at h
    | bool b => simp at h
    | num n => simp at h
    | str s => simp at h
    | arr xs => simp at h

theorem save_skip (ver : String) (cs : ConfigState) (sec : String)
    (s : Dict) (wres : Option Int)
    (heq : jeq (currentSection cs.settings sec) (.obj s) = true) :
    saveSectionSettings ver cs sec s wres =
      some (⟨ensureSection cs.settings sec, cs.lastChanged⟩, false) := by
  unfold saveSectionSettings
  simp only []
  rw [currentSection_eq] at heq
  rw [dget_ensure]
  simp only [heq, if_true]

theorem save_write (ver : String) (cs : ConfigState) (sec : String)
    (s : Dict) (wres : Option Int) (d : Dict)
    (hcur : currentSection cs.settings sec = .obj d)
    (hneq : jeq (currentSection cs.settings sec) (.obj s) = false) :
    saveSectionSettings ver cs sec s wres =
      some (writeConfig ver
        ⟨dset (ensureSection cs.settings sec) sec (.obj (dupdate d s)),
          cs.lastChanged⟩ wres, true) := by
  unfold saveSectionSettings
  simp only []
  rw [currentSection_eq] at hcur hneq
  rw [dget_ensure, hcur]
  rw [hcur] at hneq
  simp only [hneq, Bool.false_eq_true, if_false]

/-! ## The claims -/

/-- C1: for every default template `D` and persisted section `S`
(string-keyed mappings with nested mappings, i.e. well-formed dicts
satisfying the nested-mapping shape precondition), the default fill
`_copySettings(S, D)` succeeds and its result contains every key of `D`
(recursively for nested mappings) while keys present in both keep `S`'s
values — defaults never overwrite existing values (`fillSpecB`); and
`loadSectionSettings` stores and returns exactly this filled section. -/
theorem claim_C1_fill_and_load (st : Dict) (sec : String) (S D : Dict)
    (hsec : (dget st sec).getD (.obj []) = .obj S)
    (hnS : dnodup S = true) (hnD : dnodup D = true)
    (hshape : shapeOk S D = true) :
    ∃ r : Dict, copySettings (.obj S) D = some (.obj r) ∧
      fillSpecB S D r = true ∧
      loadSectionSettings st sec D = some (dset st sec (.obj r), .obj r) := by
  obtain ⟨r, hr⟩ := copy_total D S hnD hshape
  refine ⟨r, hr, fill_spec D S r hnD hnS hshape hr, ?_⟩
  unfold loadSectionSettings
  rw [hsec, hr]

/-- Witness for C1 at a concrete store, section and template. -/
theorem claim_C1_witness :
    ∃ r : Dict,
      copySettings (.obj [("a", JVal.num 1)]) [("a", JVal.num 2), ("b", JVal.num 3)] =
        some (.obj r) ∧
      fillSpecB [("a", JVal.num 1)] [("a", JVal.num 2), ("b", JVal.num 3)] r = true ∧
      loadSectionSettings [("x", JVal.obj [("a", JVal.num 1)])] "x"
          [("a", JVal.num 2), ("b", JVal.num 3)] =
        some (dset [("x", JVal.obj [("a", JVal.num 1)])] "x" (.obj r), .obj r) :=
  claim_C1_fill_and_load [("x", JVal.obj [("a", JVal.num 1)])] "x"
    [("a", JVal.num 1)] [("a", JVal.num 2), ("b", JVal.num 3)]
    (by simp [dget]) (by simp [dnodup, jnodup, dmem, dget])
    (by simp [dnodup, jnodup, dmem, dget]) (by simp [shapeOk, dget])

/-- C2 counterexample: on the claimed scenario document the migrated
result still carries the top-level `LocalServer` key — the claim's "no
top-level `LocalServer` key" is false (the code copies the section, it
never deletes it). -/
theorem claim_C2_counterexample :
    migrateOldConfig [("LocalServer", JVal.obj [("path", JVal.str oldServerPath)])] =
      some [("LocalServer", JVal.obj [("path", JVal.str oldServerPath)]),
        ("Servers", JVal.obj [("local_server", JVal.obj [("path", JVal.str newServerPath)])])]
    ∧ dmem [("LocalServer", JVal.obj [("path", JVal.str oldServerPath)]),
        ("Servers", JVal.obj [("local_server", JVal.obj [("path", JVal.str newServerPath)])])]
        "LocalServer" = true :=
  ⟨rfl, rfl⟩

/-- C2 (amended): a document with top-level
`LocalServer: {"path": <obsolete OSX path>}` and no `version` key
migrates to a document whose `Servers.local_server.path` is the
replacement path, while the top-level `LocalServer` key remains present
with its original value (the migration copies the section rather than
renaming it). -/
theorem claim_C2_migration_scenario :
    migrateOldConfig [("LocalServer", JVal.obj [("path", JVal.str oldServerPath)])] =
      some [("LocalServer", JVal.obj [("path", JVal.str oldServerPath)]),
        ("Servers", JVal.obj [("local_server", JVal.obj [("path", JVal.str newServerPath)])])]
    ∧ dget3 [("LocalServer", JVal.obj [("path", JVal.str oldServerPath)]),
        ("Servers", JVal.obj [("local_server", JVal.obj [("path", JVal.str newServerPath)])])]
        "Servers" "local_server" "path" = some (JVal.str newServerPath)
    ∧ dget [("LocalServer", JVal.obj [("path", JVal.str oldServerPath)]),
        ("Servers", JVal.obj [("local_server", JVal.obj [("path", JVal.str newServerPath)])])]
        "LocalServer" = some (JVal.obj [("path", JVal.str oldServerPath)]) :=
  ⟨rfl, rfl, rfl⟩

/-- C3 counterexample: a parse failure does *not* leave the recorded
modification timestamp unchanged — `_readConfig` records the file mtime
before `json.load` runs, so the stored timestamp moves from 0 to 5. -/
theorem claim_C3_counterexample :
    readConfig ⟨[], some 0⟩ (ReadOutcome.parseFail 5) = some ⟨[], some 5⟩
    ∧ some (5 : Int) ≠ some (0 : Int) :=
  ⟨rfl, by decide⟩

/-- C3 (amended): on open/stat failure `_readConfig` raises nothing and
leaves document and timestamp unchanged; on a parse failure it raises
nothing and leaves the document unchanged but has already recorded the
file's mtime; on a successful parse of a JSON object it records the
mtime and shallow-merges the top-level keys; and for valid JSON whose
top level is not an object an exception can propagate (a bare number
makes `dict.update` raise an uncaught `TypeError`). -/
theorem claim_C3_read_config (cs : ConfigState) (m : Int) (d : Dict) (n : Int)
    (h : dnodup cs.settings = true) (hd : dnodup d = true) :
    readConfig cs .openFail = some cs
    ∧ readConfig cs (.parseFail m) = some ⟨cs.settings, some m⟩
    ∧ readConfig cs (.parsed m (.obj d)) = some ⟨dupdate cs.settings d, some m⟩
    ∧ readConfig cs (.parsed m (.num n)) = none :=
  ⟨readConfig_openFail cs h, readConfig_parseFail cs m h,
    readConfig_obj cs m d h hd, readConfig_num cs m n⟩

/-- Witness for C3 at a concrete state and outcomes. -/
theorem claim_C3_witness :
    readConfig ⟨[("A", JVal.obj [])], some 0⟩ .openFail = some ⟨[("A", JVal.obj [])], some 0⟩
    ∧ readConfig ⟨[("A", JVal.obj [])], some 0⟩ (.parseFail 5) =
        some ⟨[("A", JVal.obj [])], some 5⟩
    ∧ readConfig ⟨[("A", JVal.obj [])], some 0⟩ (.parsed 5 (.obj [("B", JVal.num 2)])) =
        some ⟨dupdate [("A", JVal.obj [])] [("B", JVal.num 2)], some 5⟩
    ∧ readConfig ⟨[("A", JVal.obj [])], some 0⟩ (.parsed 5 (.num 7)) = none :=
  claim_C3_read_config ⟨[("A", JVal.obj [])], some 0⟩ 5 [("B", JVal.num 2)] 7
    (by simp [dnodup, jnodup, dmem, dget]) (by simp [dnodup, jnodup, dmem, dget])

/-- C4: the legacy migration is idempotent — running `_migrateOldConfig`
on the result of a previous run reproduces that result (including the
error cases, via `Option.bind`), and a document whose `version` is a
string not below `1.4.0` in dotted-numeric order is returned
unchanged (the migration body does not run). -/
theorem claim_C4_migration_idempotent :
    (∀ s : Dict, (migrateOldConfig s).bind migrateOldConfig = migrateOldConfig s)
    ∧ (∀ (s : Dict) (v : String), dget s "version" = some (.str v) →
        versionLt v "1.4.0" = false → migrateOldConfig s = some s) :=
  ⟨migrate_bind_idem, migrate_noop_of_version⟩

/-- Witness for C4: the guard stops migration at version `1.4.0`. -/
theorem claim_C4_witness :
    migrateOldConfig [("version", JVal.str "1.4.0")] =
      some [("version", JVal.str "1.4.0")] :=
  claim_C4_migration_idempotent.2 [("version", JVal.str "1.4.0")] "1.4.0" rfl rfl

/-- C5 counterexample: saving the strict sub-mapping `{"a": 1}` into a
section currently holding `{"a": 1, "b": 2}` leaves the section's
content unchanged by the merge (second conjunct), yet the call persists
(write flag `true`, version stamped, timestamp moved) — refuting
"persists if and only if the merge changes the section's prior
content". -/
theorem claim_C5_counterexample :
    saveSectionSettings "2.0.0"
        ⟨[("S", JVal.obj [("a", JVal.num 1), ("b", JVal.num 2)])], some 0⟩ "S"
        [("a", JVal.num 1)] (some 7) =
      some (⟨[("S", JVal.obj [("a", JVal.num 1), ("b", JVal.num 2)]),
        ("version", JVal.str "2.0.0")], some 7⟩, true)
    ∧ dupdate [("a", JVal.num 1), ("b", JVal.num 2)] [("a", JVal.num 1)] =
        [("a", JVal.num 1), ("b", JVal.num 2)] := by
  constructor
  · simp [saveSectionSettings, ensureSection, dmem, dget, jeq, jeqObj, jeqList,
      dupdate, dset, writeConfig]
  · rfl

/-- C5 (amended): `saveSectionSettings` merges the given mapping into
the named section (creating it if absent) and persists if and only if
the given mapping differs, as a Python mapping, from the section's prior
content — not "iff the merge changes the content": a strict sub-mapping
also triggers the write. -/
theorem claim_C5_save_persists_iff_values_differ (ver : String)
    (cs : ConfigState) (sec : String) (s : Dict) (wres : Option Int)
    (hshape : sectionShape cs.settings sec = true) :
    ∃ (cs2 : ConfigState) (w : Bool),
      saveSectionSettings ver cs sec s wres = some (cs2, w)
      ∧ w = !(jeq (currentSection cs.settings sec) (.obj s))
      ∧ (w = true →
          ∃ d, currentSection cs.settings sec = .obj d ∧
            cs2 = writeConfig ver
              ⟨dset (ensureSection cs.settings sec) sec (.obj (dupdate d s)),
                cs.lastChanged⟩ wres) := by
  cases heq : jeq (currentSection cs.settings sec) (.obj s) with
  | true =>
    refine ⟨⟨ensureSection cs.settings sec, cs.lastChanged⟩, false,
      save_skip ver cs sec s wres heq, rfl, by simp⟩
  | false =>
    obtain ⟨d, hd⟩ := currentSection_shape cs.settings sec hshape
    refine ⟨_, true, save_write ver cs sec s wres d hd heq, rfl, ?_⟩
    intro _
    exact ⟨d, hd, rfl⟩

/-- Witness for C5 at the counterexample input: the write fires because
the given mapping differs from the prior content. -/
theorem claim_C5_witness :
    ∃ (cs2 : ConfigState) (w : Bool),
      saveSectionSettings "2.0.0"
          ⟨[("S", JVal.obj [("a", JVal.num 1), ("b", JVal.num 2)])], some 0⟩ "S"
          [("a", JVal.num 1)] (some 7) = some (cs2, w)
      ∧ w = !(jeq (currentSection [("S", JVal.obj [("a", JVal.num 1), ("b", JVal.num 2)])] "S")
          (.obj [("a", JVal.num 1)]))
      ∧ (w = true →
          ∃ d, currentSection [("S", JVal.obj [("a", JVal.num 1), ("b", JVal.num 2)])] "S" = .obj d ∧
            cs2 = writeConfig "2.0.0"
              ⟨dset (ensureSection [("S", JVal.obj [("a", JVal.num 1), ("b", JVal.num 2)])] "S") "S"
                (.obj (dupdate d [("a", JVal.num 1)])), some 0⟩ (some 7)) :=
  claim_C5_save_persists_iff_values_differ "2.0.0"
    ⟨[("S", JVal.obj [("a", JVal.num 1), ("b", JVal.num 2)])], some 0⟩ "S"
    [("a", JVal.num 1)] (some 7) (by simp [sectionShape, dget])

/-- C6: when the given new values equal (as a Python mapping) the
current section content, `saveSectionSettings` performs no disk write
and leaves the recorded timestamp unchanged (only the invisible
empty-section creation may have happened); in every other case — the
named section being a mapping or absent, per the data model — it merges
and persists via `_writeConfig`. -/
theorem claim_C6_save_noop_iff_equal (ver : String) (cs : ConfigState)
    (sec : String) (s : Dict) (wres : Option Int)
    (hshape : sectionShape cs.settings sec = true) :
    (jeq (currentSection cs.settings sec) (.obj s) = true →
      saveSectionSettings ver cs sec s wres =
        some (⟨ensureSection cs.settings sec, cs.lastChanged⟩, false))
    ∧ (jeq (currentSection cs.settings sec) (.obj s) = false →
      ∃ d, currentSection cs.settings sec = .obj d ∧
        saveSectionSettings ver cs sec s wres =
          some (writeConfig ver
            ⟨dset (ensureSection cs.settings sec) sec (.obj (dupdate d s)),
              cs.lastChanged⟩ wres, true)) := by
  constructor
  · intro heq
    exact save_skip ver cs sec s wres heq
  · intro hneq
    obtain ⟨d, hd⟩ := currentSection_shape cs.settings sec hshape
    exact ⟨d, hd, save_write ver cs sec s wres d hd hneq⟩

/-- Witness for C6: equal new values (even reordered) skip the write and
keep the timestamp. -/
theorem claim_C6_witness :
    saveSectionSettings "2.0.0"
        ⟨[("S", JVal.obj [("a", JVal.num 1), ("b", JVal.num 2)])], some 0⟩ "S"
        [("b", JVal.num 2), ("a", JVal.num 1)] (some 7) =
      some (⟨ensureSection [("S", JVal.obj [("a", JVal.num 1), ("b", JVal.num 2)])] "S",
        some 0⟩, false) :=
  (claim_C6_save_noop_iff_equal "2.0.0"
      ⟨[("S", JVal.obj [("a", JVal.num 1), ("b", JVal.num 2)])], some 0⟩ "S"
      [("b", JVal.num 2), ("a", JVal.num 1)] (some 7)
      (by simp [sectionShape, dget])).1
    (by simp [currentSection, ensureSection, dmem, dget, jeq, jeqObj, jeqList])

/-- C7 counterexample: a section loaded earlier with the default
template `{"a": 1}` does *not* keep that default across a reload — the
file's section `{"b": 2}` replaces it wholesale and the post-merge loop
re-fills it only against itself, so key `"a"` is gone. -/
theorem claim_C7_counterexample :
    readConfig ⟨[("S", JVal.obj [("a", JVal.num 1)])], some 0⟩
        (ReadOutcome.parsed 1 (JVal.obj [("S", JVal.obj [("b", JVal.num 2)])])) =
      some ⟨[("S", JVal.obj [("b", JVal.num 2)])], some 1⟩
    ∧ dmem [("b", JVal.num 2)] "a" = false := by
  constructor
  · rw [readConfig_obj ⟨[("S", JVal.obj [("a", JVal.num 1)])], some 0⟩ 1
      [("S", JVal.obj [("b", JVal.num 2)])]
      (by simp [dnodup, jnodup, dmem, dget]) (by simp [dnodup, jnodup, dmem, dget])]
    rfl
  · rfl

/-- C7 (amended): no default-template registry exists. After the merge,
`_readConfig` passes each dict-valued top-level section to
`loadSectionSettings` with the section's *own current content* as the
default template, which leaves it unchanged; the overall effect of a
reload of an object document is exactly the shallow merge, and defaults
applied by earlier loads are not re-applied. -/
theorem claim_C7_refill_self_noop (cs : ConfigState) (m : Int) (d : Dict)
    (h1 : dnodup cs.settings = true) (h2 : dnodup d = true) :
    readConfig cs (.parsed m (.obj d)) = some ⟨dupdate cs.settings d, some m⟩
    ∧ (∀ (st : Dict) (k : String) (dsec : Dict), dnodup st = true →
        dget st k = some (.obj dsec) →
        loadSectionSettings st k dsec = some (st, .obj dsec)) := by
  refine ⟨readConfig_obj cs m d h1 h2, ?_⟩
  intro st k dsec hst hg
  unfold loadSectionSettings
  rw [hg]
  simp only [Option.getD_some]
  have hd : dnodup dsec = true := by
    simpa [jnodup] using jnodup_of_dget st k _ hst hg
  rw [self_fill dsec dsec hd fun kv hkv => dget_of_mem_nodup dsec kv.1 kv.2 hd hkv]
  simp only []
  rw [dset_id st k _ hg]

/-- Witness for C7 at a concrete state and file content. -/
theorem claim_C7_witness :
    readConfig ⟨[("S", JVal.obj [("a", JVal.num 1)])], some 0⟩
        (.parsed 1 (.obj [("S", JVal.obj [("b", JVal.num 2)])])) =
      some ⟨dupdate [("S", JVal.obj [("a", JVal.num 1)])]
        [("S", JVal.obj [("b", JVal.num 2)])], some 1⟩ :=
  (claim_C7_refill_self_noop ⟨[("S", JVal.obj [("a", JVal.num 1)])], some 0⟩ 1
      [("S", JVal.obj [("b", JVal.num 2)])]
      (by simp [dnodup, jnodup, dmem, dget])
      (by simp [dnodup, jnodup, dmem, dget])).1

/-- C8: the migration guard's version comparison is dotted-numeric, not
lexical: `1.3.9 < 1.4.0` and `1.4.0 < 1.10.0` under `versionLt`, while
plain lexical string comparison would wrongly rank `"1.10.0"` below
`"1.4.0"`. -/
theorem claim_C8_version_order :
    versionLt "1.3.9" "1.4.0" = true
    ∧ versionLt "1.4.0" "1.10.0" = true
    ∧ versionLt "1.10.0" "1.4.0" = false
    ∧ strLexLt "1.10.0" "1.4.0" = true :=
  ⟨rfl, rfl, rfl, rfl⟩

/-- C9 counterexample: a persisted non-mapping value (`0`) at a key
whose default is a (here empty) nested mapping does *not* reach the
error branch — the recursive call iterates over the empty default and
returns the scalar untouched, so `loadSectionSettings` succeeds. -/
theorem claim_C9_counterexample :
    loadSectionSettings [("S", JVal.obj [("k", JVal.num 0)])] "S"
        [("k", JVal.obj [])] =
      some ([("S", JVal.obj [("k", JVal.num 0)])], JVal.obj [("k", JVal.num 0)]) := by
  simp [loadSectionSettings, dget, copySettings, dmem, dset]

/-- C9 (amended): under the shape precondition (wherever the defaults
map a key to a nested mapping, the persisted section lacks that key or
maps it to a mapping) the recursive fill is total and
`loadSectionSettings` returns normally; and when the persisted section
holds a *scalar* (non-mapping, non-string, non-sequence) value at a key
whose default nested mapping is *nonempty*, the fill raises and
`loadSectionSettings` propagates the error. -/
theorem claim_C9_total_and_error (st : Dict) (sec : String) (S D : Dict)
    (hsec : (dget st sec).getD (.obj []) = .obj S)
    (hnD : dnodup D = true) :
    (shapeOk S D = true → (loadSectionSettings st sec D).isSome = true)
    ∧ (∀ (k : String) (v : JVal) (dd : Dict),
        (k, JVal.obj dd) ∈ D → dd ≠ [] → dget S k = some v → isScalar v = true →
        loadSectionSettings st sec D = none) := by
  constructor
  · intro hs
    obtain ⟨r, hr⟩ := copy_total D S hnD hs
    unfold loadSectionSettings
    rw [hsec, hr]
    rfl
  · intro k v dd hm hdd hg hv
    unfold loadSectionSettings
    rw [hsec, copy_err D S hnD k v dd hm hdd hg hv]

/-- Witness for C9: a scalar under a nonempty dict default raises. -/
theorem claim_C9_witness :
    loadSectionSettings [("S", JVal.obj [("k", JVal.num 0)])] "S"
        [("k", JVal.obj [("x", JVal.num 1)])] = none :=
  (claim_C9_total_and_error [("S", JVal.obj [("k", JVal.num 0)])] "S"
      [("k", JVal.num 0)] [("k", JVal.obj [("x", JVal.num 1)])]
      (by simp [dget]) (by simp [dnodup, jnodup, dmem, dget])).2
    "k" (JVal.num 0) [("x", JVal.num 1)] (by simp) (by simp) (by simp [dget]) rfl

/-- C10 counterexample: `setSettings` with a document lacking `version`
still changes the prior value of the top-level `version` key — the
persist restamps it to the running application version, refuting "every
top-level key absent from `doc` is still present afterwards with its
prior value". -/
theorem claim_C10_counterexample :
    setSettings "2.0.0" ⟨[("version", JVal.str "1.3.0")], some 0⟩
        [("A", JVal.obj [])] (some 3) =
      (⟨[("version", JVal.str "2.0.0"), ("A", JVal.obj [])], some 3⟩, true)
    ∧ dmem [("A", JVal.obj [])] "version" = false
    ∧ ("2.0.0" : String) ≠ "1.3.0" := by
  refine ⟨?_, rfl, by decide⟩
  simp [setSettings, jeq, jeqObj, jeqList, dget, dmem, dupdate, dset, writeConfig]

/-- C10 (amended): the mutators never delete keys, and they never change
a stored value other than the top-level `version` key: keys of a
(mapping-shaped, non-`version`) section absent from the mapping given to
`saveSectionSettings` keep their prior values; top-level keys other than
`version` absent from the document given to `setSettings` keep their
prior values; and every previously present top-level key is still
present after `setSettings` (the `version` value alone may be restamped
by the persist). -/
theorem claim_C10_mutators_preserve (ver : String) (cs : ConfigState) :
    (∀ (sec : String) (s : Dict) (wres : Option Int) (d : Dict)
        (cs2 : ConfigState) (w : Bool),
      sec ≠ "version" → dget cs.settings sec = some (.obj d) →
      saveSectionSettings ver cs sec s wres = some (cs2, w) →
      ∀ k v, dget d k = some v → dmem s k = false →
        ∃ d2, dget cs2.settings sec = some (.obj d2) ∧ dget d2 k = some v)
    ∧ (∀ (doc : Dict) (wres : Option Int) (k : String) (v : JVal),
      dget cs.settings k = some v → dmem doc k = false → k ≠ "version" →
      dget ((setSettings ver cs doc wres).1).settings k = some v)
    ∧ (∀ (doc : Dict) (wres : Option Int) (k : String),
      dmem cs.settings k = true →
      dmem ((setSettings ver cs doc wres).1).settings k = true) := by
  refine ⟨?_, ?_, ?_⟩
  · intro sec s wres d cs2 w hsecv hd hsave k v hk hks
    have hcur : currentSection cs.settings sec = .obj d := by
      rw [currentSection_eq, hd]
      rfl
    have hens : ensureSection cs.settings sec = cs.settings := by
      unfold ensureSection
      rw [show dmem cs.settings sec = true by simp [dmem, hd]]
      rfl
    cases heq : jeq (currentSection cs.settings sec) (.obj s) with
    | true =>
      rw [save_skip ver cs sec s wres heq] at hsave
      obtain ⟨h1, _⟩ := Prod.mk.injEq .. ▸ Option.some_inj.mp hsave
      refine ⟨d, ?_, hk⟩
      rw [← h1]
      simp only [hens]
      exact hd
    | false =>
      rw [save_write ver cs sec s wres d hcur heq] at hsave
      obtain ⟨h1, _⟩ := Prod.mk.injEq .. ▸ Option.some_inj.mp hsave
      refine ⟨dupdate d s, ?_, ?_⟩
      · rw [← h1]
        unfold writeConfig
        simp only [hens]
        rw [dget_dset_ne _ "version" sec _ fun he => hsecv he.symm,
          dget_dset_self]
      · rw [dget_dupdate_not_mem s d k hks]
        exact hk
  · intro doc wres k v hk hkd hkv
    unfold setSettings
    cases hjeq : jeq (.obj cs.settings) (.obj doc) with
    | true => simpa [hjeq] using hk
    | false =>
      simp only [hjeq, Bool.false_eq_true, if_false]
      unfold writeConfig
      simp only []
      rw [dget_dset_ne _ "version" k _ fun he => hkv he.symm,
        dget_dupdate_not_mem doc cs.settings k hkd]
      exact hk
  · intro doc wres k hk
    unfold setSettings
    cases hjeq : jeq (.obj cs.settings) (.obj doc) with
    | true => simpa [hjeq] using hk
    | false =>
      simp only [hjeq, Bool.false_eq_true, if_false]
      unfold writeConfig
      simp only []
      rw [dmem_dset, dmem_dupdate]
      simp [hk]

/-- Witness for C10: a non-`version` key absent from the new document
survives `setSettings` with its prior value. -/
theorem claim_C10_witness :
    dget ((setSettings "2.0.0" ⟨[("A", JVal.num 1)], some 0⟩
        [("B", JVal.num 2)] (some 3)).1).settings "A" = some (JVal.num 1) :=
  (claim_C10_mutators_preserve "2.0.0" ⟨[("A", JVal.num 1)], some 0⟩).2.1
    [("B", JVal.num 2)] (some 3) "A" (JVal.num 1)
    (by simp [dget]) (by simp [dmem, dget]) (by decide)
